import Mathlib

/-!
Shallow embedding of the signal core of `src/lib.rs` (a monophonic kick-drum
synthesizer voice): the AHDSR envelope state machine, the phase-accumulating
oscillator, the pitch mapper, and the MIDI note-on/note-off handling of the
processing loop.

Modelling conventions:
* `f32` values inside the envelope are modelled as real numbers (`ℝ`);
  `powf(0.5)` is modelled as `Real.sqrt` (the two agree on the nonnegative
  values the envelope manipulates) and `powf(2.0)` as squaring.
* In that real-valued model `sample_rate.recip()` is the real inverse `⁻¹`,
  which matches `f32` only while the sample rate is nonzero; the `0.0`
  (pre-initialization) sample-rate path, where `f32` produces `inf` and
  `NaN`, is replayed faithfully over the IEEE domains `F` (oscillator) and
  `FR` (envelope, `AhdsrStateF`), and the theorems about time-dependent
  envelope behavior hypothesize a positive sample rate.
* The oscillator update divides by the sample rate, which is `0.0` before
  the host initializes the plugin, so IEEE-754 non-finite values matter
  there.  The oscillator is therefore modelled over `F`, a domain of IEEE
  values (`nan`, two infinities, exact finite rationals).  Finite
  arithmetic is exact (rounding is not modelled); `nan`/`inf` creation and
  propagation follow IEEE-754.
-/

set_option maxHeartbeats 1600000

namespace KickVerify

/-! ### IEEE-style value domain for the oscillator -/

/-- An IEEE-754 floating-point value with exact (unrounded) finite part:
either `nan`, one of the two infinities, or a finite rational. -/
inductive F where
  | nan : F
  | inf : F
  | neginf : F
  | finite : ℚ → F
deriving DecidableEq

/-- IEEE reciprocal, as used by `f32::recip`: the reciprocal of `0.0` is
`+inf` (the positive zero case; signed zeros are not distinguished, and the
states reached in this development only ever hold positive zero). -/
def F.recip : F → F
  | .nan => .nan
  | .inf => .finite 0
  | .neginf => .finite 0
  | .finite q => if q = 0 then .inf else .finite q⁻¹

/-- IEEE multiplication: `0 × ±inf` is `nan`, infinities multiply by sign. -/
def F.mul : F → F → F
  | .nan, _ => .nan
  | _, .nan => .nan
  | .finite a, .finite b => .finite (a * b)
  | .inf, .finite b => if 0 < b then .inf else if b < 0 then .neginf else .nan
  | .finite a, .inf => if 0 < a then .inf else if a < 0 then .neginf else .nan
  | .neginf, .finite b => if 0 < b then .neginf else if b < 0 then .inf else .nan
  | .finite a, .neginf => if 0 < a then .neginf else if a < 0 then .inf else .nan
  | .inf, .inf => .inf
  | .inf, .neginf => .neginf
  | .neginf, .inf => .neginf
  | .neginf, .neginf => .inf

/-- IEEE addition: `inf + (-inf)` is `nan`. -/
def F.add : F → F → F
  | .nan, _ => .nan
  | _, .nan => .nan
  | .finite a, .finite b => .finite (a + b)
  | .inf, .neginf => .nan
  | .neginf, .inf => .nan
  | .inf, _ => .inf
  | _, .inf => .inf
  | .neginf, _ => .neginf
  | _, .neginf => .neginf

/-- IEEE subtraction: `inf - inf` is `nan`. -/
def F.sub : F → F → F
  | .nan, _ => .nan
  | _, .nan => .nan
  | .finite a, .finite b => .finite (a - b)
  | .inf, .inf => .nan
  | .neginf, .neginf => .nan
  | .inf, _ => .inf
  | _, .inf => .neginf
  | .neginf, _ => .neginf
  | _, .neginf => .inf

/-- IEEE floor: the floor of an infinity is itself, `floor(nan) = nan`. -/
def F.floor : F → F
  | .nan => .nan
  | .inf => .inf
  | .neginf => .neginf
  | .finite q => .finite ⌊q⌋

/-- IEEE `>=` comparison: any comparison involving `nan` is false. -/
def F.ge : F → F → Bool
  | .nan, _ => false
  | _, .nan => false
  | .inf, _ => true
  | _, .inf => false
  | _, .neginf => true
  | .neginf, _ => false
  | .finite a, .finite b => decide (b ≤ a)

/-! ### Oscillator (`OscillatorState` in `src/lib.rs`, lines 328-343) -/

/-- `struct OscillatorState { sample_rate: f32, phase: f32 }`. -/
structure OscillatorState where
  sample_rate : F
  phase : F
deriving DecidableEq

/-- `OscillatorState::advance`: returns the phase before advancing, then
increments the phase by `frequency * sample_rate.recip()` and, if the result
is `>= 1.0`, subtracts its floor. -/
def OscillatorState.advance (s : OscillatorState) (frequency : F) : F × OscillatorState :=
  let old_phase := s.phase
  let phase1 := s.phase.add (frequency.mul s.sample_rate.recip)
  let phase2 := if phase1.ge (F.finite 1) then phase1.sub phase1.floor else phase1
  (old_phase, { s with phase := phase2 })

/-- Iterate `OscillatorState.advance` over a list of (finite) frequencies,
keeping only the state. -/
def OscillatorState.run (s : OscillatorState) : List ℚ → OscillatorState
  | [] => s
  | f :: fs => ((s.advance (F.finite f)).2).run fs

/-- The oscillator state of a `KickSynth` before `initialize` has run:
`Default` zero-initializes both the sample rate and the phase
(`src/lib.rs`, lines 162-175 and 328-332). -/
def preInitOsc : OscillatorState :=
  { sample_rate := F.finite 0, phase := F.finite 0 }

/-! ### Interpolation helpers (`src/lib.rs`, lines 459-465) -/

/-- `fn lerp(t: f32, a: f32, b: f32) -> f32 { a + (b - a) * t }`. -/
def lerp (t a b : ℝ) : ℝ := a + (b - a) * t

/-- The pitch mapper of `KickSynth::process` (`src/lib.rs`, line 303):
`let freq = lerp(pitch_env, end_freq, start_freq)`. -/
def computeFreq (pitch_env end_freq start_freq : ℝ) : ℝ :=
  lerp pitch_env end_freq start_freq

/-! ### AHDSR envelope (`src/lib.rs`, lines 345-457) -/

/-- `enum AhdsrStage`, with `NotTriggered` as the `Default` variant. -/
inductive AhdsrStage where
  | NotTriggered
  | Attack
  | Hold
  | Decay
  | Sustain
  | Release
deriving DecidableEq

/-- `AhdsrStage::next`: the fixed stage cycle. -/
def AhdsrStage.next : AhdsrStage → AhdsrStage
  | .NotTriggered => .Attack
  | .Attack => .Hold
  | .Hold => .Decay
  | .Decay => .Sustain
  | .Sustain => .Release
  | .Release => .NotTriggered

/-- Number of zero-length-skip steps possible from a stage before the skip
loop of `AhdsrState::advance` must stop (it stops at `NotTriggered` and
`Sustain`, which return early, and at any stage with positive duration).
Used as the termination measure of the loop. -/
def AhdsrStage.skipBound : AhdsrStage → ℕ
  | .NotTriggered => 0
  | .Sustain => 0
  | .Attack => 3
  | .Hold => 2
  | .Decay => 1
  | .Release => 1

noncomputable section

/-- `AhdsrStage::endpoint_values`: the (segment-start, segment-end) value
pair of each stage, as a function of the value captured at the last
transition and the sustain level. -/
def AhdsrStage.endpoint_values : AhdsrStage → ℝ → ℝ → ℝ × ℝ
  | .NotTriggered, _, _ => (0, 0)
  | .Attack, current, _ => (current, 1)
  | .Hold, _, _ => (1, 1)
  | .Decay, _, sustain => (1, sustain)
  | .Sustain, _, sustain => (sustain, sustain)
  | .Release, current, _ => (current, 0)

/-- `struct AhdsrState` (`src/lib.rs`, lines 380-394); `u64` sample counter
modelled as `ℕ`, `f32` fields as `ℝ`. -/
structure AhdsrState where
  sample_rate : ℝ
  current_stage : AhdsrStage
  samples_since_stage_start : ℕ
  last_value_at_transition : ℝ
  current : ℝ
  attack : ℝ
  hold : ℝ
  decay : ℝ
  sustain : ℝ
  release : ℝ

/-- The `Default` (all-zero) `AhdsrState`. -/
def AhdsrState.default : AhdsrState :=
  { sample_rate := 0
    current_stage := .NotTriggered
    samples_since_stage_start := 0
    last_value_at_transition := 0
    current := 0
    attack := 0
    hold := 0
    decay := 0
    sustain := 0
    release := 0 }

/-- `AhdsrState::set_stage`: switch stage, reset the elapsed-sample counter,
and capture the new segment's starting value (computed from the current
output value and the sustain level) in both `current` and
`last_value_at_transition`. -/
def AhdsrState.set_stage (s : AhdsrState) (stage : AhdsrStage) : AhdsrState :=
  { s with
    current_stage := stage
    samples_since_stage_start := 0
    current := (stage.endpoint_values s.current s.sustain).1
    last_value_at_transition := (stage.endpoint_values s.current s.sustain).1 }

/-- `AhdsrState::trigger`: gate-on forces `Attack`, gate-off forces
`Release`. -/
def AhdsrState.trigger (s : AhdsrState) (triggered : Bool) : AhdsrState :=
  s.set_stage (match triggered with
    | true => .Attack
    | false => .Release)

/-- `AhdsrState::apply_params`: store the externally smoothed parameter
values as the working parameters (the smoothed values themselves are inputs
supplied by the external parameter layer). -/
def AhdsrState.apply_params (s : AhdsrState)
    (attack hold decay sustain release : ℝ) : AhdsrState :=
  { s with
    attack := attack
    hold := hold
    decay := decay
    sustain := sustain
    release := release }

/-- The duration associated with the current stage, mirroring the `match`
at the top of the loop in `AhdsrState::advance`: `NotTriggered` and
`Sustain` have none. -/
def AhdsrState.timeForCurrent (s : AhdsrState) : Option ℝ :=
  match s.current_stage with
  | .NotTriggered => none
  | .Sustain => none
  | .Attack => some s.attack
  | .Hold => some s.hold
  | .Decay => some s.decay
  | .Release => some s.release

/-- Result of the stage-skipping loop at the top of `AhdsrState::advance`:
either the function returned early (from `NotTriggered` or `Sustain`, with
the returned value and the state as mutated so far), or the loop broke out
with a positive `stage_time`. -/
inductive SkipResult where
  | early (value : ℝ) (state : AhdsrState)
  | timed (state : AhdsrState) (stage_time : ℝ)

/-- The `loop` of `AhdsrState::advance` (`src/lib.rs`, lines 423-440):
return `0.0` from `NotTriggered` and the live sustain level from `Sustain`;
break with the current stage's duration if it is positive; otherwise
`set_stage(current_stage.next())` and continue. -/
def AhdsrState.skipZeroStages (s : AhdsrState) : SkipResult :=
  match hs : s.current_stage with
  | .NotTriggered => .early 0 s
  | .Sustain => .early s.sustain s
  | .Attack =>
    if 0 < s.attack then .timed s s.attack
    else (s.set_stage AhdsrStage.Attack.next).skipZeroStages
  | .Hold =>
    if 0 < s.hold then .timed s s.hold
    else (s.set_stage AhdsrStage.Hold.next).skipZeroStages
  | .Decay =>
    if 0 < s.decay then .timed s s.decay
    else (s.set_stage AhdsrStage.Decay.next).skipZeroStages
  | .Release =>
    if 0 < s.release then .timed s s.release
    else (s.set_stage AhdsrStage.Release.next).skipZeroStages
termination_by s.current_stage.skipBound
decreasing_by
  all_goals
    simp [AhdsrState.set_stage, AhdsrStage.next, AhdsrStage.skipBound, hs]

/-- `AhdsrState::advance` (`src/lib.rs`, lines 420-456).  After the skip
loop, if the elapsed time has reached the stage duration, transition to the
next stage (resetting elapsed time); increment the sample counter; then
output the shaped interpolation
`lerp(t, start.powf(0.5), end.powf(0.5)).powf(2.0)` between the current
stage's endpoint values, where `t = time_since_stage_start / stage_time`,
and store it in `current`.  Returns `(output, new state)`. -/
def AhdsrState.advance (s : AhdsrState) : ℝ × AhdsrState :=
  let seconds_per_sample := s.sample_rate⁻¹
  match s.skipZeroStages with
  | .early value s1 => (value, s1)
  | .timed s1 stage_time =>
    let t0 := (s1.samples_since_stage_start : ℝ) * seconds_per_sample
    let step : AhdsrState × ℝ :=
      if stage_time ≤ t0 then (s1.set_stage s1.current_stage.next, 0) else (s1, t0)
    let s2 := step.1
    let time_since_stage_start := step.2
    let s3 := { s2 with samples_since_stage_start := s2.samples_since_stage_start + 1 }
    let ep := s3.current_stage.endpoint_values s3.last_value_at_transition s3.sustain
    let t := time_since_stage_start / stage_time
    let out := (lerp t (Real.sqrt ep.1) (Real.sqrt ep.2)) ^ 2
    (out, { s3 with current := out })

/-- Iterated `advance`, keeping only the state: the envelope after `n`
audio samples. -/
def AhdsrState.advanceN : ℕ → AhdsrState → AhdsrState
  | 0, s => s
  | n + 1, s => AhdsrState.advanceN n (s.advance).2

/-! ### Operation sequences on one envelope -/

/-- One externally driven operation on an `AhdsrState`: a gate transition,
a refresh of the working parameters from the (external) parameter layer, or
one audio-rate `advance`. -/
inductive EnvOp where
  | trigger (gate : Bool)
  | applyParams (attack hold decay sustain release : ℝ)
  | advance

/-- Apply one operation. -/
def EnvOp.apply (s : AhdsrState) : EnvOp → AhdsrState
  | .trigger gate => s.trigger gate
  | .applyParams a h d su r => s.apply_params a h d su r
  | .advance => (s.advance).2

/-- Run a sequence of operations from a starting state. -/
def runOps (s : AhdsrState) : List EnvOp → AhdsrState
  | [] => s
  | op :: ops => runOps (op.apply s) ops

/-- An operation is valid when any parameter refresh supplies non-negative
durations and a sustain level in `[0, 1]`. -/
def EnvOp.valid : EnvOp → Prop
  | .applyParams a h d su r => 0 ≤ a ∧ 0 ≤ h ∧ 0 ≤ d ∧ (0 ≤ su ∧ su ≤ 1) ∧ 0 ≤ r
  | _ => True

/-- The envelope data invariant: the stored output value, the captured
transition value and the sustain level all lie in `[0, 1]`, and the sample
rate is non-negative. -/
def EnvInv (s : AhdsrState) : Prop :=
  0 ≤ s.current ∧ s.current ≤ 1 ∧
  0 ≤ s.last_value_at_transition ∧ s.last_value_at_transition ≤ 1 ∧
  0 ≤ s.sustain ∧ s.sustain ≤ 1 ∧
  0 ≤ s.sample_rate

/-- `b` carries the same parameter values and sample rate as `s`. -/
def SameParams (s b : AhdsrState) : Prop :=
  b.sample_rate = s.sample_rate ∧ b.attack = s.attack ∧ b.hold = s.hold ∧
  b.decay = s.decay ∧ b.sustain = s.sustain ∧ b.release = s.release

/-- Full specification of the outcome of the skip loop: it either returns
early from an untimed stage (with value `0` from `NotTriggered` or the live
sustain level from `Sustain`) or breaks with the current stage's positive
duration; in both cases the loop only ever called `set_stage`, so the
parameters are untouched, the data invariant is preserved, and the state is
either untouched or has a freshly reset sample counter. -/
def SkipSpec (s : AhdsrState) : Prop :=
  (∃ v s1, s.skipZeroStages = .early v s1 ∧
    ((s1.current_stage = AhdsrStage.NotTriggered ∧ v = 0) ∨
      (s1.current_stage = AhdsrStage.Sustain ∧ v = s1.sustain)) ∧
    SameParams s s1 ∧ (EnvInv s → EnvInv s1) ∧
    (s1 = s ∨ s1.samples_since_stage_start = 0)) ∨
  (∃ s1 T, s.skipZeroStages = .timed s1 T ∧ 0 < T ∧ s1.timeForCurrent = some T ∧
    SameParams s s1 ∧ (EnvInv s → EnvInv s1) ∧
    (s1 = s ∨ s1.samples_since_stage_start = 0))

/-! ### Voice controller (`KickSynth`, MIDI event handling in `process`) -/

/-- The per-voice state of `KickSynth` (parameters live in the external
parameter layer and are passed in as plain values where needed). -/
structure KickSynth where
  sample_rate : ℝ
  osc_state : OscillatorState
  pitch_env_state : AhdsrState
  amp_env_state : AhdsrState
  last_midi_note : Option ℕ
  midi_frequency : ℝ
  midi_velocity : ℝ

/-- The `NoteEvent::NoteOn` arm of `KickSynth::process` (`src/lib.rs`,
lines 277-284): record the note's frequency (computed by the external
`util::midi_note_to_freq`, passed here as `mntf`) and velocity, remember
the note as held, gate both envelopes on, and reset the oscillator phase to
the configured phase offset. -/
def KickSynth.on_note_on (mntf : ℕ → ℝ) (v : KickSynth) (note : ℕ)
    (velocity : ℝ) (phase_offset : ℚ) : KickSynth :=
  { v with
    midi_frequency := mntf note
    midi_velocity := velocity
    last_midi_note := some note
    amp_env_state := v.amp_env_state.trigger true
    pitch_env_state := v.pitch_env_state.trigger true
    osc_state := { v.osc_state with phase := F.finite phase_offset } }

/-- The `NoteEvent::NoteOff` arm of `KickSynth::process` (`src/lib.rs`,
lines 285-289): guarded by `Some(note) == self.last_midi_note`; on a match
it clears the held note and gates both envelopes off, otherwise the event
falls through to the `_ => {}` arm and nothing changes. -/
def KickSynth.on_note_off (v : KickSynth) (note : ℕ) : KickSynth :=
  if some note = v.last_midi_note then
    { v with
      last_midi_note := none
      amp_env_state := v.amp_env_state.trigger false
      pitch_env_state := v.pitch_env_state.trigger false }
  else v

/-! ### Concrete states used by the claim scenarios -/

/-- An initialized envelope with `attack = hold = decay = 0` and
`sustain = 0.3`, as in the zero-duration-stage scenario. -/
def c1Base : AhdsrState :=
  { sample_rate := 48000
    current_stage := .NotTriggered
    samples_since_stage_start := 0
    last_value_at_transition := 0
    current := 0
    attack := 0
    hold := 0
    decay := 0
    sustain := 0.3
    release := 0.1 }

/-- The zero-duration-stage scenario state: `c1Base` right after
`trigger(true)`. -/
def c1State : AhdsrState := c1Base.trigger true

/-- An envelope sitting at the start of a one-second `Attack` stage at a
sample rate of 2 Hz. -/
def envAttack : AhdsrState :=
  { sample_rate := 2
    current_stage := .Attack
    samples_since_stage_start := 0
    last_value_at_transition := 0
    current := 0
    attack := 1
    hold := 1
    decay := 1
    sustain := 1/2
    release := 1 }

/-- An envelope resting in `Sustain` with the captured sustain value
`1/2`. -/
def envSustain : AhdsrState :=
  { sample_rate := 48000
    current_stage := .Sustain
    samples_since_stage_start := 0
    last_value_at_transition := 1/2
    current := 1/2
    attack := 0
    hold := 0
    decay := 0
    sustain := 1/2
    release := 1 }

/-- A voice currently holding MIDI note 5. -/
def voiceHolding5 : KickSynth :=
  { sample_rate := 48000
    osc_state := { sample_rate := F.finite 48000, phase := F.finite 0 }
    pitch_env_state := AhdsrState.default
    amp_env_state := AhdsrState.default
    last_midi_note := some 5
    midi_frequency := 200
    midi_velocity := 1 }

/-! ### IEEE-domain replay of the envelope arithmetic

The real-valued `AhdsrState.advance` above models `sample_rate.recip()` as
the real inverse, which agrees with `f32` only while the sample rate is
nonzero.  Before the host initializes the plugin the sample rate is `0.0`,
where `f32` gives `recip(0.0) = +inf` and then `0.0 * inf = NaN` inside the
elapsed-time computation.  To reason about that path, the envelope is also
embedded over `FR`, an IEEE-style domain like `F` but whose finite values
are real numbers (the envelope's curve shaping takes square roots, so exact
rationals do not suffice). -/

/-- An IEEE-754 value with exact real finite part. -/
inductive FR where
  | nan : FR
  | inf : FR
  | neginf : FR
  | finite : ℝ → FR

/-- IEEE reciprocal over `FR` (`f32::recip`): `recip(0.0) = +inf` (signed
zeros are not distinguished; the states reached here hold positive zero). -/
def FR.recip : FR → FR
  | .nan => .nan
  | .inf => .finite 0
  | .neginf => .finite 0
  | .finite x => if x = 0 then .inf else .finite x⁻¹

/-- IEEE multiplication over `FR`: `0 × ±inf` is `nan`. -/
def FR.mul : FR → FR → FR
  | .nan, _ => .nan
  | _, .nan => .nan
  | .finite a, .finite b => .finite (a * b)
  | .inf, .finite b => if 0 < b then .inf else if b < 0 then .neginf else .nan
  | .finite a, .inf => if 0 < a then .inf else if a < 0 then .neginf else .nan
  | .neginf, .finite b => if 0 < b then .neginf else if b < 0 then .inf else .nan
  | .finite a, .neginf => if 0 < a then .neginf else if a < 0 then .inf else .nan
  | .inf, .inf => .inf
  | .inf, .neginf => .neginf
  | .neginf, .inf => .neginf
  | .neginf, .neginf => .inf

/-- IEEE addition over `FR`: `inf + (-inf)` is `nan`. -/
def FR.add : FR → FR → FR
  | .nan, _ => .nan
  | _, .nan => .nan
  | .finite a, .finite b => .finite (a + b)
  | .inf, .neginf => .nan
  | .neginf, .inf => .nan
  | .inf, _ => .inf
  | _, .inf => .inf
  | .neginf, _ => .neginf
  | _, .neginf => .neginf

/-- IEEE subtraction over `FR`: `inf - inf` is `nan`. -/
def FR.sub : FR → FR → FR
  | .nan, _ => .nan
  | _, .nan => .nan
  | .finite a, .finite b => .finite (a - b)
  | .inf, .inf => .nan
  | .neginf, .neginf => .nan
  | .inf, _ => .inf
  | _, .inf => .neginf
  | .neginf, _ => .neginf
  | _, .neginf => .inf

/-- IEEE division over `FR`: `nan` propagates, `x/0` is a signed infinity
for `x ≠ 0` and `nan` for `0/0`, `inf/inf` is `nan`, `finite/inf` is zero
(zero again treated as positive). -/
def FR.div : FR → FR → FR
  | .nan, _ => .nan
  | _, .nan => .nan
  | .finite a, .finite b =>
    if b = 0 then (if a = 0 then .nan else if 0 < a then .inf else .neginf)
    else .finite (a / b)
  | .inf, .inf => .nan
  | .inf, .neginf => .nan
  | .neginf, .inf => .nan
  | .neginf, .neginf => .nan
  | .inf, .finite b => if 0 ≤ b then .inf else .neginf
  | .neginf, .finite b => if 0 ≤ b then .neginf else .inf
  | .finite _, .inf => .finite 0
  | .finite _, .neginf => .finite 0

/-- IEEE `>=` over `FR`: any comparison involving `nan` is false. -/
noncomputable def FR.ge : FR → FR → Bool
  | .nan, _ => false
  | _, .nan => false
  | .inf, _ => true
  | _, .inf => false
  | _, .neginf => true
  | .neginf, _ => false
  | .finite a, .finite b => decide (b ≤ a)

/-- IEEE `>` over `FR`: any comparison involving `nan` is false. -/
noncomputable def FR.gt : FR → FR → Bool
  | .nan, _ => false
  | _, .nan => false
  | .inf, .inf => false
  | .inf, _ => true
  | _, .inf => false
  | .neginf, .neginf => false
  | .neginf, _ => false
  | _, .neginf => true
  | .finite a, .finite b => decide (b < a)

/-- `f32::powf(x, 0.5)` over `FR`: `nan` propagates, `(±inf)^0.5 = +inf`,
negative finite bases give `nan`, non-negative finite bases give the square
root. -/
def FR.powHalf : FR → FR
  | .nan => .nan
  | .inf => .inf
  | .neginf => .inf
  | .finite x => if x < 0 then .nan else .finite (Real.sqrt x)

/-- `f32::powf(x, 2.0)` over `FR`: `nan` propagates, `(±inf)^2 = +inf`,
finite bases square. -/
def FR.powTwo : FR → FR
  | .nan => .nan
  | .inf => .inf
  | .neginf => .inf
  | .finite x => .finite (x ^ 2)

/-- `lerp` over `FR`: `a + (b - a) * t`, with IEEE propagation. -/
def lerpF (t a b : FR) : FR := a.add ((b.sub a).mul t)

/-- `AhdsrStage::endpoint_values` over `FR`. -/
def AhdsrStage.endpoint_valuesF : AhdsrStage → FR → FR → FR × FR
  | .NotTriggered, _, _ => (.finite 0, .finite 0)
  | .Attack, current, _ => (current, .finite 1)
  | .Hold, _, _ => (.finite 1, .finite 1)
  | .Decay, _, sustain => (.finite 1, sustain)
  | .Sustain, _, sustain => (sustain, sustain)
  | .Release, current, _ => (current, .finite 0)

/-- `struct AhdsrState` with its `f32` fields kept in the IEEE domain. -/
structure AhdsrStateF where
  sample_rate : FR
  current_stage : AhdsrStage
  samples_since_stage_start : ℕ
  last_value_at_transition : FR
  current : FR
  attack : FR
  hold : FR
  decay : FR
  sustain : FR
  release : FR

/-- The `Default` (all-zero) `AhdsrStateF`. -/
def AhdsrStateF.default : AhdsrStateF :=
  { sample_rate := .finite 0
    current_stage := .NotTriggered
    samples_since_stage_start := 0
    last_value_at_transition := .finite 0
    current := .finite 0
    attack := .finite 0
    hold := .finite 0
    decay := .finite 0
    sustain := .finite 0
    release := .finite 0 }

/-- `AhdsrState::set_stage` over `FR`. -/
def AhdsrStateF.set_stage (s : AhdsrStateF) (stage : AhdsrStage) : AhdsrStateF :=
  { s with
    current_stage := stage
    samples_since_stage_start := 0
    current := (stage.endpoint_valuesF s.current s.sustain).1
    last_value_at_transition := (stage.endpoint_valuesF s.current s.sustain).1 }

/-- `AhdsrState::trigger` over `FR`. -/
def AhdsrStateF.trigger (s : AhdsrStateF) (triggered : Bool) : AhdsrStateF :=
  s.set_stage (match triggered with
    | true => .Attack
    | false => .Release)

/-- `AhdsrState::apply_params` over `FR`. -/
def AhdsrStateF.apply_params (s : AhdsrStateF)
    (attack hold decay sustain release : FR) : AhdsrStateF :=
  { s with
    attack := attack
    hold := hold
    decay := decay
    sustain := sustain
    release := release }

/-- Result of the skip loop over `FR`. -/
inductive SkipResultF where
  | early (value : FR) (state : AhdsrStateF)
  | timed (state : AhdsrStateF) (stage_time : FR)

/-- The `loop` of `AhdsrState::advance` over `FR`; the `time > 0.0` break
test is the IEEE comparison (false for `nan` durations, which are therefore
skipped like non-positive ones). -/
noncomputable def AhdsrStateF.skipZeroStages (s : AhdsrStateF) : SkipResultF :=
  match hs : s.current_stage with
  | .NotTriggered => .early (.finite 0) s
  | .Sustain => .early s.sustain s
  | .Attack =>
    if s.attack.gt (FR.finite 0) then .timed s s.attack
    else (s.set_stage AhdsrStage.Attack.next).skipZeroStages
  | .Hold =>
    if s.hold.gt (FR.finite 0) then .timed s s.hold
    else (s.set_stage AhdsrStage.Hold.next).skipZeroStages
  | .Decay =>
    if s.decay.gt (FR.finite 0) then .timed s s.decay
    else (s.set_stage AhdsrStage.Decay.next).skipZeroStages
  | .Release =>
    if s.release.gt (FR.finite 0) then .timed s s.release
    else (s.set_stage AhdsrStage.Release.next).skipZeroStages
termination_by s.current_stage.skipBound
decreasing_by
  all_goals
    simp [AhdsrStateF.set_stage, AhdsrStage.next, AhdsrStage.skipBound, hs]

/-- `AhdsrState::advance` over `FR`: every `f32` operation of
`src/lib.rs` lines 420-456 replayed in the IEEE domain — the reciprocal,
the `u64 as f32` elapsed-sample product, the `>=` transition test, the
interpolation fraction division and the `powf`-shaped `lerp`. -/
noncomputable def AhdsrStateF.advance (s : AhdsrStateF) : FR × AhdsrStateF :=
  let seconds_per_sample := s.sample_rate.recip
  match s.skipZeroStages with
  | .early value s1 => (value, s1)
  | .timed s1 stage_time =>
    let t0 := (FR.finite (s1.samples_since_stage_start : ℝ)).mul seconds_per_sample
    let step : AhdsrStateF × FR :=
      if t0.ge stage_time then (s1.set_stage s1.current_stage.next, .finite 0)
      else (s1, t0)
    let s2 := step.1
    let time_since_stage_start := step.2
    let s3 := { s2 with samples_since_stage_start := s2.samples_since_stage_start + 1 }
    let ep := s3.current_stage.endpoint_valuesF s3.last_value_at_transition s3.sustain
    let t := time_since_stage_start.div stage_time
    let out := (lerpF t ep.1.powHalf ep.2.powHalf).powTwo
    (out, { s3 with current := out })

/-- The pre-initialization failing state for the unit-interval claim: from
the default (sample rate still `0.0`) envelope, refresh the parameters with
the valid values attack = 1, hold = decay = release = 0, sustain = 0, then
gate on — the operation sequence `[applyParams 1 0 0 0 0, trigger true]`. -/
def c4FailState : AhdsrStateF :=
  ((AhdsrStateF.default).apply_params (.finite 1) (.finite 0) (.finite 0) (.finite 0)
    (.finite 0)).trigger true

end

/-! ### Basic lemmas about `set_stage` and the skip loop -/

@[simp] theorem set_stage_current_stage (s : AhdsrState) (st : AhdsrStage) :
    (s.set_stage st).current_stage = st := rfl

@[simp] theorem set_stage_samples (s : AhdsrState) (st : AhdsrStage) :
    (s.set_stage st).samples_since_stage_start = 0 := rfl

@[simp] theorem set_stage_sample_rate (s : AhdsrState) (st : AhdsrStage) :
    (s.set_stage st).sample_rate = s.sample_rate := rfl

@[simp] theorem set_stage_attack (s : AhdsrState) (st : AhdsrStage) :
    (s.set_stage st).attack = s.attack := rfl

@[simp] theorem set_stage_hold (s : AhdsrState) (st : AhdsrStage) :
    (s.set_stage st).hold = s.hold := rfl

@[simp] theorem set_stage_decay (s : AhdsrState) (st : AhdsrStage) :
    (s.set_stage st).decay = s.decay := rfl

@[simp] theorem set_stage_sustain (s : AhdsrState) (st : AhdsrStage) :
    (s.set_stage st).sustain = s.sustain := rfl

@[simp] theorem set_stage_release (s : AhdsrState) (st : AhdsrStage) :
    (s.set_stage st).release = s.release := rfl

theorem set_stage_current (s : AhdsrState) (st : AhdsrStage) :
    (s.set_stage st).current = (st.endpoint_values s.current s.sustain).1 := rfl

theorem set_stage_last (s : AhdsrState) (st : AhdsrStage) :
    (s.set_stage st).last_value_at_transition = (st.endpoint_values s.current s.sustain).1 := rfl

theorem skipZeroStages_notTriggered (s : AhdsrState)
    (hs : s.current_stage = .NotTriggered) :
    s.skipZeroStages = .early 0 s := by
  rw [AhdsrState.skipZeroStages.eq_def]
  split <;> simp_all

theorem skipZeroStages_sustain (s : AhdsrState) (hs : s.current_stage = .Sustain) :
    s.skipZeroStages = .early s.sustain s := by
  rw [AhdsrState.skipZeroStages.eq_def]
  split <;> simp_all

theorem skipZeroStages_attack_pos (s : AhdsrState) (hs : s.current_stage = .Attack)
    (h : 0 < s.attack) : s.skipZeroStages = .timed s s.attack := by
  rw [AhdsrState.skipZeroStages.eq_def]
  split <;> simp_all

theorem skipZeroStages_attack_nonpos (s : AhdsrState) (hs : s.current_stage = .Attack)
    (h : ¬ 0 < s.attack) :
    s.skipZeroStages = (s.set_stage AhdsrStage.Hold).skipZeroStages := by
  rw [AhdsrState.skipZeroStages.eq_def]
  split <;> simp_all [AhdsrStage.next]

theorem skipZeroStages_hold_pos (s : AhdsrState) (hs : s.current_stage = .Hold)
    (h : 0 < s.hold) : s.skipZeroStages = .timed s s.hold := by
  rw [AhdsrState.skipZeroStages.eq_def]
  split <;> simp_all

theorem skipZeroStages_hold_nonpos (s : AhdsrState) (hs : s.current_stage = .Hold)
    (h : ¬ 0 < s.hold) :
    s.skipZeroStages = (s.set_stage AhdsrStage.Decay).skipZeroStages := by
  rw [AhdsrState.skipZeroStages.eq_def]
  split <;> simp_all [AhdsrStage.next]

theorem skipZeroStages_decay_pos (s : AhdsrState) (hs : s.current_stage = .Decay)
    (h : 0 < s.decay) : s.skipZeroStages = .timed s s.decay := by
  rw [AhdsrState.skipZeroStages.eq_def]
  split <;> simp_all

theorem skipZeroStages_decay_nonpos (s : AhdsrState) (hs : s.current_stage = .Decay)
    (h : ¬ 0 < s.decay) :
    s.skipZeroStages = (s.set_stage AhdsrStage.Sustain).skipZeroStages := by
  rw [AhdsrState.skipZeroStages.eq_def]
  split <;> simp_all [AhdsrStage.next]

theorem skipZeroStages_release_pos (s : AhdsrState) (hs : s.current_stage = .Release)
    (h : 0 < s.release) : s.skipZeroStages = .timed s s.release := by
  rw [AhdsrState.skipZeroStages.eq_def]
  split <;> simp_all

theorem skipZeroStages_release_nonpos (s : AhdsrState) (hs : s.current_stage = .Release)
    (h : ¬ 0 < s.release) :
    s.skipZeroStages = (s.set_stage AhdsrStage.NotTriggered).skipZeroStages := by
  rw [AhdsrState.skipZeroStages.eq_def]
  split <;> simp_all [AhdsrStage.next]

/-! ### Characterization of `advance` in terms of the skip-loop result -/

theorem advance_early (s : AhdsrState) (v : ℝ) (s1 : AhdsrState)
    (h : s.skipZeroStages = .early v s1) : s.advance = (v, s1) := by
  simp [AhdsrState.advance, h]

theorem advance_timed_run_eq (s s1 : AhdsrState) (T : ℝ)
    (h : s.skipZeroStages = .timed s1 T)
    (hlt : (s1.samples_since_stage_start : ℝ) * s.sample_rate⁻¹ < T) :
    s.advance =
      ((lerp (((s1.samples_since_stage_start : ℝ) * s.sample_rate⁻¹) / T)
          (Real.sqrt ((s1.current_stage.endpoint_values s1.last_value_at_transition s1.sustain).1))
          (Real.sqrt ((s1.current_stage.endpoint_values s1.last_value_at_transition s1.sustain).2))) ^ 2,
        { s1 with
            samples_since_stage_start := s1.samples_since_stage_start + 1
            current :=
              (lerp (((s1.samples_since_stage_start : ℝ) * s.sample_rate⁻¹) / T)
                (Real.sqrt ((s1.current_stage.endpoint_values s1.last_value_at_transition s1.sustain).1))
                (Real.sqrt ((s1.current_stage.endpoint_values s1.last_value_at_transition s1.sustain).2))) ^ 2 }) := by
  have hc : ¬ T ≤ (s1.samples_since_stage_start : ℝ) * s.sample_rate⁻¹ := not_le.mpr hlt
  simp [AhdsrState.advance, h, hc]

theorem advance_timed_next_eq (s s1 : AhdsrState) (T : ℝ)
    (h : s.skipZeroStages = .timed s1 T)
    (hge : T ≤ (s1.samples_since_stage_start : ℝ) * s.sample_rate⁻¹) :
    s.advance =
      ((lerp 0
          (Real.sqrt (((s1.current_stage.next).endpoint_values
            ((s1.current_stage.next.endpoint_values s1.current s1.sustain).1) s1.sustain).1))
          (Real.sqrt (((s1.current_stage.next).endpoint_values
            ((s1.current_stage.next.endpoint_values s1.current s1.sustain).1) s1.sustain).2))) ^ 2,
        { s1.set_stage s1.current_stage.next with
            samples_since_stage_start := 1
            current :=
              (lerp 0
                (Real.sqrt (((s1.current_stage.next).endpoint_values
                  ((s1.current_stage.next.endpoint_values s1.current s1.sustain).1) s1.sustain).1))
                (Real.sqrt (((s1.current_stage.next).endpoint_values
                  ((s1.current_stage.next.endpoint_values s1.current s1.sustain).1) s1.sustain).2))) ^ 2 }) := by
  simp [AhdsrState.advance, h, hge, set_stage_last]

/-! ### Structural facts used by the skip-loop specification -/

theorem sameParams_refl (s : AhdsrState) : SameParams s s :=
  ⟨rfl, rfl, rfl, rfl, rfl, rfl⟩

theorem sameParams_trans {s b c : AhdsrState} (h1 : SameParams s b)
    (h2 : SameParams b c) : SameParams s c := by
  unfold SameParams at h1 h2 ⊢
  refine ⟨?_, ?_, ?_, ?_, ?_, ?_⟩
  · rw [h2.1, h1.1]
  · rw [h2.2.1, h1.2.1]
  · rw [h2.2.2.1, h1.2.2.1]
  · rw [h2.2.2.2.1, h1.2.2.2.1]
  · rw [h2.2.2.2.2.1, h1.2.2.2.2.1]
  · rw [h2.2.2.2.2.2, h1.2.2.2.2.2]

theorem sameParams_set_stage (s : AhdsrState) (st : AhdsrStage) :
    SameParams s (s.set_stage st) :=
  ⟨rfl, rfl, rfl, rfl, rfl, rfl⟩

theorem endpoint_values_mem (st : AhdsrStage) (c su : ℝ) (hc0 : 0 ≤ c) (hc1 : c ≤ 1)
    (hsu0 : 0 ≤ su) (hsu1 : su ≤ 1) :
    (0 ≤ (st.endpoint_values c su).1 ∧ (st.endpoint_values c su).1 ≤ 1) ∧
    (0 ≤ (st.endpoint_values c su).2 ∧ (st.endpoint_values c su).2 ≤ 1) := by
  cases st <;> refine ⟨⟨?_, ?_⟩, ?_, ?_⟩ <;>
    simp [AhdsrStage.endpoint_values] <;> first | assumption | norm_num

theorem envInv_set_stage {s : AhdsrState} (h : EnvInv s) (st : AhdsrStage) :
    EnvInv (s.set_stage st) := by
  obtain ⟨h1, h2, h3, h4, h5, h6, h7⟩ := h
  have hm := (endpoint_values_mem st s.current s.sustain h1 h2 h5 h6).1
  refine ⟨?_, ?_, ?_, ?_, h5, h6, h7⟩
  · rw [set_stage_current]; exact hm.1
  · rw [set_stage_current]; exact hm.2
  · rw [set_stage_last]; exact hm.1
  · rw [set_stage_last]; exact hm.2

theorem skipSpec_step {s : AhdsrState} {st : AhdsrStage}
    (heq : s.skipZeroStages = (s.set_stage st).skipZeroStages)
    (hrec : SkipSpec (s.set_stage st)) : SkipSpec s := by
  rcases hrec with ⟨v, s1, h1, h2, h3, h4, h5⟩ | ⟨s1, T, h1, hT, h2, h3, h4, h5⟩
  · refine Or.inl ⟨v, s1, heq.trans h1, h2, sameParams_trans (sameParams_set_stage s st) h3,
      fun hi => h4 (envInv_set_stage hi st), Or.inr ?_⟩
    rcases h5 with rfl | h5
    · exact set_stage_samples s st
    · exact h5
  · refine Or.inr ⟨s1, T, heq.trans h1, hT, h2,
      sameParams_trans (sameParams_set_stage s st) h3,
      fun hi => h4 (envInv_set_stage hi st), Or.inr ?_⟩
    rcases h5 with rfl | h5
    · exact set_stage_samples s st
    · exact h5

theorem skipZeroStages_spec (s : AhdsrState) : SkipSpec s := by
  suffices H : ∀ (n : ℕ) (s : AhdsrState), s.current_stage.skipBound ≤ n → SkipSpec s from
    H s.current_stage.skipBound s le_rfl
  intro n
  induction n with
  | zero =>
    intro s hb
    cases hs : s.current_stage <;> rw [hs] at hb <;> simp [AhdsrStage.skipBound] at hb
    · exact Or.inl ⟨0, s, skipZeroStages_notTriggered s hs, Or.inl ⟨hs, rfl⟩,
        sameParams_refl s, fun h => h, Or.inl rfl⟩
    · exact Or.inl ⟨s.sustain, s, skipZeroStages_sustain s hs, Or.inr ⟨hs, rfl⟩,
        sameParams_refl s, fun h => h, Or.inl rfl⟩
  | succ n ih =>
    intro s hb
    cases hs : s.current_stage
    case NotTriggered =>
      exact Or.inl ⟨0, s, skipZeroStages_notTriggered s hs, Or.inl ⟨hs, rfl⟩,
        sameParams_refl s, fun h => h, Or.inl rfl⟩
    case Sustain =>
      exact Or.inl ⟨s.sustain, s, skipZeroStages_sustain s hs, Or.inr ⟨hs, rfl⟩,
        sameParams_refl s, fun h => h, Or.inl rfl⟩
    case Attack =>
      by_cases hp : 0 < s.attack
      · exact Or.inr ⟨s, s.attack, skipZeroStages_attack_pos s hs hp, hp,
          by simp [AhdsrState.timeForCurrent, hs], sameParams_refl s, fun h => h, Or.inl rfl⟩
      · refine skipSpec_step (skipZeroStages_attack_nonpos s hs hp) (ih _ ?_)
        rw [hs] at hb
        simp [AhdsrStage.skipBound] at hb ⊢ <;> omega
    case Hold =>
      by_cases hp : 0 < s.hold
      · exact Or.inr ⟨s, s.hold, skipZeroStages_hold_pos s hs hp, hp,
          by simp [AhdsrState.timeForCurrent, hs], sameParams_refl s, fun h => h, Or.inl rfl⟩
      · refine skipSpec_step (skipZeroStages_hold_nonpos s hs hp) (ih _ ?_)
        rw [hs] at hb
        simp [AhdsrStage.skipBound] at hb ⊢ <;> omega
    case Decay =>
      by_cases hp : 0 < s.decay
      · exact Or.inr ⟨s, s.decay, skipZeroStages_decay_pos s hs hp, hp,
          by simp [AhdsrState.timeForCurrent, hs], sameParams_refl s, fun h => h, Or.inl rfl⟩
      · refine skipSpec_step (skipZeroStages_decay_nonpos s hs hp) (ih _ ?_)
        rw [hs] at hb
        simp [AhdsrStage.skipBound] at hb ⊢ <;> omega
    case Release =>
      by_cases hp : 0 < s.release
      · exact Or.inr ⟨s, s.release, skipZeroStages_release_pos s hs hp, hp,
          by simp [AhdsrState.timeForCurrent, hs], sameParams_refl s, fun h => h, Or.inl rfl⟩
      · refine skipSpec_step (skipZeroStages_release_nonpos s hs hp) (ih _ ?_)
        rw [hs] at hb
        simp [AhdsrStage.skipBound] at hb ⊢ <;> omega

theorem skip_early_spec {s : AhdsrState} {v : ℝ} {s1 : AhdsrState}
    (h : s.skipZeroStages = .early v s1) :
    ((s1.current_stage = AhdsrStage.NotTriggered ∧ v = 0) ∨
      (s1.current_stage = AhdsrStage.Sustain ∧ v = s1.sustain)) ∧
    SameParams s s1 ∧ (EnvInv s → EnvInv s1) ∧
    (s1 = s ∨ s1.samples_since_stage_start = 0) := by
  rcases skipZeroStages_spec s with ⟨v', s1', heq, h2, h3, h4, h5⟩ |
    ⟨s1', T', heq, _, _, _, _, _⟩
  · rw [h] at heq
    injection heq with e1 e2
    subst e1; subst e2
    exact ⟨h2, h3, h4, h5⟩
  · rw [h] at heq
    cases heq

theorem skip_timed_spec {s s1 : AhdsrState} {T : ℝ}
    (h : s.skipZeroStages = .timed s1 T) :
    0 < T ∧ s1.timeForCurrent = some T ∧ SameParams s s1 ∧ (EnvInv s → EnvInv s1) ∧
    (s1 = s ∨ s1.samples_since_stage_start = 0) := by
  rcases skipZeroStages_spec s with ⟨v', s1', heq, _, _, _, _⟩ |
    ⟨s1', T', heq, hT, h2, h3, h4, h5⟩
  · rw [h] at heq
    cases heq
  · rw [h] at heq
    injection heq with e1 e2
    subst e1; subst e2
    exact ⟨hT, h2, h3, h4, h5⟩

theorem skip_of_timed_pos {s : AhdsrState} {D : ℝ}
    (ht : s.timeForCurrent = some D) (hD : 0 < D) :
    s.skipZeroStages = .timed s D := by
  cases hs : s.current_stage
  case NotTriggered => simp [AhdsrState.timeForCurrent, hs] at ht
  case Sustain => simp [AhdsrState.timeForCurrent, hs] at ht
  case Attack =>
    simp [AhdsrState.timeForCurrent, hs] at ht
    subst ht
    exact skipZeroStages_attack_pos s hs hD
  case Hold =>
    simp [AhdsrState.timeForCurrent, hs] at ht
    subst ht
    exact skipZeroStages_hold_pos s hs hD
  case Decay =>
    simp [AhdsrState.timeForCurrent, hs] at ht
    subst ht
    exact skipZeroStages_decay_pos s hs hD
  case Release =>
    simp [AhdsrState.timeForCurrent, hs] at ht
    subst ht
    exact skipZeroStages_release_pos s hs hD

theorem timeForCurrent_congr {s b : AhdsrState} (hst : b.current_stage = s.current_stage)
    (hsp : SameParams s b) : b.timeForCurrent = s.timeForCurrent := by
  obtain ⟨_, ha, hh, hd, _, hr⟩ := hsp
  cases hs : s.current_stage <;>
    simp [AhdsrState.timeForCurrent, hs, hst, ha, hh, hd, hr]

/-! ### Bounds on the shaped interpolation -/

theorem lerp_mem {t a b : ℝ} (ht0 : 0 ≤ t) (ht1 : t ≤ 1) (ha0 : 0 ≤ a) (ha1 : a ≤ 1)
    (hb0 : 0 ≤ b) (hb1 : b ≤ 1) : 0 ≤ lerp t a b ∧ lerp t a b ≤ 1 := by
  unfold lerp
  constructor <;> nlinarith

theorem shaped_mem {t a b : ℝ} (ht0 : 0 ≤ t) (ht1 : t ≤ 1) (ha0 : 0 ≤ a) (ha1 : a ≤ 1)
    (hb0 : 0 ≤ b) (hb1 : b ≤ 1) :
    0 ≤ (lerp t (Real.sqrt a) (Real.sqrt b)) ^ 2 ∧
      (lerp t (Real.sqrt a) (Real.sqrt b)) ^ 2 ≤ 1 := by
  have hsa0 := Real.sqrt_nonneg a
  have hsa1 : Real.sqrt a ≤ 1 := Real.sqrt_le_one.mpr ha1
  have hsb0 := Real.sqrt_nonneg b
  have hsb1 : Real.sqrt b ≤ 1 := Real.sqrt_le_one.mpr hb1
  obtain ⟨hl0, hl1⟩ := lerp_mem ht0 ht1 hsa0 hsa1 hsb0 hsb1
  exact ⟨sq_nonneg _, by nlinarith⟩

/-! ### `advance` and the other operations preserve the envelope invariant -/

theorem advance_envInv {s : AhdsrState} (h : EnvInv s) :
    EnvInv (s.advance).2 ∧ 0 ≤ (s.advance).1 ∧ (s.advance).1 ≤ 1 := by
  cases hsk : s.skipZeroStages with
  | early v s1 =>
    obtain ⟨hchar, hsp, hinv, hsam⟩ := skip_early_spec hsk
    have h1 : EnvInv s1 := hinv h
    rw [advance_early s v s1 hsk]
    refine ⟨h1, ?_, ?_⟩
    · rcases hchar with ⟨_, rfl⟩ | ⟨_, rfl⟩
      · exact le_refl 0
      · exact h1.2.2.2.2.1
    · rcases hchar with ⟨_, rfl⟩ | ⟨_, rfl⟩
      · exact zero_le_one
      · exact h1.2.2.2.2.2.1
  | timed s1 T =>
    obtain ⟨hT, htime, hsp, hinv, hsam⟩ := skip_timed_spec hsk
    have h1 : EnvInv s1 := hinv h
    obtain ⟨hc0, hc1, hl0, hl1, hsu0, hsu1, hr1⟩ := h1
    have hrs : 0 ≤ s.sample_rate := h.2.2.2.2.2.2
    have ht0 : 0 ≤ (s1.samples_since_stage_start : ℝ) * s.sample_rate⁻¹ :=
      mul_nonneg (Nat.cast_nonneg _) (inv_nonneg.mpr hrs)
    by_cases hc : T ≤ (s1.samples_since_stage_start : ℝ) * s.sample_rate⁻¹
    · rw [advance_timed_next_eq s s1 T hsk hc]
      have hmid :=
        (endpoint_values_mem s1.current_stage.next s1.current s1.sustain hc0 hc1 hsu0 hsu1).1
      have hep := endpoint_values_mem s1.current_stage.next
        ((s1.current_stage.next.endpoint_values s1.current s1.sustain).1) s1.sustain
        hmid.1 hmid.2 hsu0 hsu1
      have hout := shaped_mem (le_refl (0:ℝ)) zero_le_one hep.1.1 hep.1.2 hep.2.1 hep.2.2
      exact ⟨⟨hout.1, hout.2, hmid.1, hmid.2, hsu0, hsu1, hr1⟩, hout.1, hout.2⟩
    · have hlt := not_le.mp hc
      rw [advance_timed_run_eq s s1 T hsk hlt]
      have hq0 : 0 ≤ (s1.samples_since_stage_start : ℝ) * s.sample_rate⁻¹ / T :=
        div_nonneg ht0 hT.le
      have hq1 : (s1.samples_since_stage_start : ℝ) * s.sample_rate⁻¹ / T ≤ 1 :=
        (div_le_one hT).mpr hlt.le
      have hep := endpoint_values_mem s1.current_stage s1.last_value_at_transition s1.sustain
        hl0 hl1 hsu0 hsu1
      have hout := shaped_mem hq0 hq1 hep.1.1 hep.1.2 hep.2.1 hep.2.2
      exact ⟨⟨hout.1, hout.2, hl0, hl1, hsu0, hsu1, hr1⟩, hout.1, hout.2⟩

theorem envInv_trigger {s : AhdsrState} (h : EnvInv s) (g : Bool) :
    EnvInv (s.trigger g) := by
  cases g <;> exact envInv_set_stage h _

theorem envInv_apply_params {s : AhdsrState} (h : EnvInv s) {a ho d su r : ℝ}
    (hsu0 : 0 ≤ su) (hsu1 : su ≤ 1) : EnvInv (s.apply_params a ho d su r) :=
  ⟨h.1, h.2.1, h.2.2.1, h.2.2.2.1, hsu0, hsu1, h.2.2.2.2.2.2⟩

theorem envInv_default : EnvInv AhdsrState.default := by
  refine ⟨?_, ?_, ?_, ?_, ?_, ?_, ?_⟩ <;> simp [AhdsrState.default] <;> norm_num

theorem runOps_envInv :
    ∀ (ops : List EnvOp) (s : AhdsrState), EnvInv s → (∀ op ∈ ops, op.valid) →
      EnvInv (runOps s ops) := by
  intro ops
  induction ops with
  | nil => intro s h _; exact h
  | cons op ops ih =>
    intro s h hv
    have hop : op.valid := hv op (List.mem_cons_self op ops)
    have hstep : EnvInv (op.apply s) := by
      cases op with
      | trigger g => exact envInv_trigger h g
      | applyParams a ho d su r =>
        obtain ⟨_, _, _, ⟨h0, h1⟩, _⟩ := hop
        exact envInv_apply_params h h0 h1
      | advance => exact (advance_envInv h).1
    exact ih (op.apply s) hstep (fun o ho => hv o (List.mem_cons_of_mem _ ho))

theorem advanceN_succ_shift (n : ℕ) (s : AhdsrState) :
    AhdsrState.advanceN (n + 1) s = ((AhdsrState.advanceN n s).advance).2 := by
  induction n generalizing s with
  | zero => rfl
  | succ n ih =>
    calc AhdsrState.advanceN (n + 1 + 1) s
        = AhdsrState.advanceN (n + 1) (s.advance).2 := rfl
      _ = ((AhdsrState.advanceN n (s.advance).2).advance).2 := ih _
      _ = ((AhdsrState.advanceN (n + 1) s).advance).2 := rfl

/-! ### The claims -/

/-- Claim C2: `advance` never divides by zero: the skip loop only ever hands
the interpolation a strictly positive stage duration as divisor (the
`stage_time` it breaks out with is positive for every state, whatever the
parameter values, zero or negative included), and a non-positive duration is
treated as instantaneous completion — the loop steps to the next stage —
rather than as an error. -/
theorem c2_no_division_by_zero :
    (∀ (s s1 : AhdsrState) (T : ℝ), s.skipZeroStages = .timed s1 T → 0 < T) ∧
    (∀ (s : AhdsrState) (d : ℝ), s.timeForCurrent = some d → d ≤ 0 →
      s.skipZeroStages = (s.set_stage s.current_stage.next).skipZeroStages) := by
  constructor
  · intro s s1 T h
    exact (skip_timed_spec h).1
  · intro s d ht hd
    cases hs : s.current_stage
    case NotTriggered => simp [AhdsrState.timeForCurrent, hs] at ht
    case Sustain => simp [AhdsrState.timeForCurrent, hs] at ht
    case Attack =>
      simp [AhdsrState.timeForCurrent, hs] at ht
      subst ht
      rw [skipZeroStages_attack_nonpos s hs (not_lt.mpr hd)]
      rfl
    case Hold =>
      simp [AhdsrState.timeForCurrent, hs] at ht
      subst ht
      rw [skipZeroStages_hold_nonpos s hs (not_lt.mpr hd)]
      rfl
    case Decay =>
      simp [AhdsrState.timeForCurrent, hs] at ht
      subst ht
      rw [skipZeroStages_decay_nonpos s hs (not_lt.mpr hd)]
      rfl
    case Release =>
      simp [AhdsrState.timeForCurrent, hs] at ht
      subst ht
      rw [skipZeroStages_release_nonpos s hs (not_lt.mpr hd)]
      rfl

/-- Witness for C2 at a concrete one-second `Attack` state. -/
theorem c2_no_division_by_zero_witness :
    envAttack.skipZeroStages = .timed envAttack 1 ∧ (0:ℝ) < 1 := by
  have ha : (0:ℝ) < envAttack.attack := by norm_num [envAttack]
  have h1 : envAttack.skipZeroStages = .timed envAttack 1 :=
    skipZeroStages_attack_pos envAttack rfl ha
  exact ⟨h1, c2_no_division_by_zero.1 envAttack envAttack 1 h1⟩

theorem skipZeroStagesF_attack_pos (s : AhdsrStateF) (hs : s.current_stage = .Attack)
    (h : s.attack.gt (FR.finite 0) = true) : s.skipZeroStages = .timed s s.attack := by
  rw [AhdsrStateF.skipZeroStages.eq_def]
  split <;> simp_all

/-- Counterexample for C4 as stated: from the zero-initialized envelope —
whose sample rate is still at its `0.0` default — the valid operation
sequence `[applyParams 1 0 0 0 0, trigger true]` followed by one `advance`
makes the IEEE replay of the source return and store `NaN`, which is not a
value in `[0, 1]`: `seconds_per_sample = recip(0.0) = +inf`, elapsed time
`(0 as f32) * inf = NaN`, `NaN >= stage_time` is false so no transition
happens, `t = NaN / 1.0 = NaN`, and the shaped `lerp` propagates `NaN` into
both the returned value and the stored `current`. -/
theorem c4_unit_interval_counterexample :
    (c4FailState.advance).1 = FR.nan ∧ (c4FailState.advance).2.current = FR.nan := by
  have hgt : FR.gt (FR.finite 1) (FR.finite 0) = true := by
    simp [FR.gt]
  have hskip : c4FailState.skipZeroStages = .timed c4FailState (FR.finite 1) :=
    skipZeroStagesF_attack_pos c4FailState rfl hgt
  have e1 : c4FailState.samples_since_stage_start = 0 := rfl
  have e2 : c4FailState.sample_rate = FR.finite 0 := rfl
  have e3 : c4FailState.current_stage = AhdsrStage.Attack := rfl
  have e4 : c4FailState.last_value_at_transition = FR.finite 0 := rfl
  have e5 : c4FailState.sustain = FR.finite 0 := rfl
  constructor <;>
    norm_num [AhdsrStateF.advance, hskip, e1, e2, e3, e4, e5, FR.recip, FR.mul, FR.add,
      FR.sub, FR.div, FR.ge, FR.powHalf, FR.powTwo, lerpF, AhdsrStage.endpoint_valuesF]

/-- Claim C4 (amended): once the envelope has been initialized — its sample
rate set to any positive value — then for every sequence of `trigger`,
parameter-refresh (with sustain level in `[0, 1]` and non-negative
durations) and `advance` operations from the otherwise zero-initialized
state, the stored output value stays in `[0, 1]` and so does the value
returned by `advance`.  (Pre-initialization, with the sample rate still at
its `0.0` default, the source instead propagates `NaN` — see the
counterexample.) -/
theorem c4_envelope_output_in_unit_interval (r : ℝ) (hr : 0 < r) (ops : List EnvOp)
    (hv : ∀ op ∈ ops, op.valid) :
    (0 ≤ (runOps { AhdsrState.default with sample_rate := r } ops).current ∧
      (runOps { AhdsrState.default with sample_rate := r } ops).current ≤ 1) ∧
    (0 ≤ ((runOps { AhdsrState.default with sample_rate := r } ops).advance).1 ∧
      ((runOps { AhdsrState.default with sample_rate := r } ops).advance).1 ≤ 1) := by
  have h0 : EnvInv { AhdsrState.default with sample_rate := r } :=
    ⟨le_refl 0, zero_le_one, le_refl 0, zero_le_one, le_refl 0, zero_le_one, hr.le⟩
  have h := runOps_envInv ops _ h0 hv
  exact ⟨⟨h.1, h.2.1⟩, (advance_envInv h).2⟩

/-- Witness for amended C4 at sample rate 48000 with the concrete operation
sequence trigger-then-advance. -/
theorem c4_envelope_output_in_unit_interval_witness :
    (0:ℝ) < 48000 ∧ (∀ op ∈ [EnvOp.trigger true, EnvOp.advance], op.valid) ∧
    (0 ≤ (runOps { AhdsrState.default with sample_rate := (48000:ℝ) }
        [EnvOp.trigger true, EnvOp.advance]).current ∧
      (runOps { AhdsrState.default with sample_rate := (48000:ℝ) }
        [EnvOp.trigger true, EnvOp.advance]).current ≤ 1) := by
  have hr : (0:ℝ) < 48000 := by norm_num
  have hv : ∀ op ∈ [EnvOp.trigger true, EnvOp.advance], op.valid := by
    intro op hop
    rcases List.mem_cons.mp hop with rfl | hop
    · trivial
    rcases List.mem_cons.mp hop with rfl | hop
    · trivial
    · cases hop
  exact ⟨hr, hv, (c4_envelope_output_in_unit_interval 48000 hr _ hv).1⟩

/-- Claim C5: `trigger(true)` from any stage forces `Attack`, resets the
elapsed-sample counter to zero and captures the current output value as the
new segment's starting value (so a retrigger restarts from the current
envelope value, not from 0); symmetrically `trigger(false)` forces `Release`
starting from the current value. -/
theorem c5_retrigger_is_click_free (s : AhdsrState) :
    ((s.trigger true).current_stage = AhdsrStage.Attack ∧
      (s.trigger true).samples_since_stage_start = 0 ∧
      (s.trigger true).current = s.current ∧
      (s.trigger true).last_value_at_transition = s.current) ∧
    ((s.trigger false).current_stage = AhdsrStage.Release ∧
      (s.trigger false).samples_since_stage_start = 0 ∧
      (s.trigger false).current = s.current ∧
      (s.trigger false).last_value_at_transition = s.current) :=
  ⟨⟨rfl, rfl, rfl, rfl⟩, rfl, rfl, rfl, rfl⟩

/-- Claim C7: the pitch mapper computes the instantaneous frequency as the
unclamped linear interpolation `end_freq + (start_freq - end_freq) * e` of
the pitch-envelope output `e`: it is `start_freq` at `e = 1` and `end_freq`
at `e = 0`; concretely with `start_freq = 1000` and `end_freq = 41` it gives
1000 at `e = 1`, 41 at `e = 0` and 520.5 at `e = 0.5`. -/
theorem c7_pitch_mapper_linear_interpolation (e end_freq start_freq : ℝ) :
    computeFreq e end_freq start_freq = end_freq + (start_freq - end_freq) * e ∧
    computeFreq 1 end_freq start_freq = start_freq ∧
    computeFreq 0 end_freq start_freq = end_freq ∧
    computeFreq 1 41 1000 = 1000 ∧
    computeFreq 0 41 1000 = 41 ∧
    computeFreq (1/2) 41 1000 = 520.5 := by
  refine ⟨rfl, ?_, ?_, ?_, ?_, ?_⟩ <;> (unfold computeFreq lerp; norm_num)

/-- Claim C10: while in `Sustain`, `advance` returns the live sustain
parameter but does not update the stored output value (the state is left
completely unchanged); consequently, if the sustain parameter is changed
during `Sustain`, the changed value is returned by `advance` while a
subsequent `trigger(false)` starts the `Release` segment from the value
captured when `Sustain` was entered (`s.current`), not from the value most
recently returned; entering `Sustain` via `set_stage` is what captures the
then-current sustain level. -/
theorem c10_sustain_live_value_not_stored (s : AhdsrState)
    (hs : s.current_stage = AhdsrStage.Sustain) (su2 : ℝ) :
    (s.advance.1 = s.sustain ∧ s.advance.2 = s) ∧
    (((s.apply_params s.attack s.hold s.decay su2 s.release).advance).1 = su2 ∧
      ((s.apply_params s.attack s.hold s.decay su2 s.release).advance).2 =
        s.apply_params s.attack s.hold s.decay su2 s.release) ∧
    (((s.apply_params s.attack s.hold s.decay su2 s.release).trigger
        false).last_value_at_transition = s.current ∧
      ((s.apply_params s.attack s.hold s.decay su2 s.release).trigger false).current =
        s.current) ∧
    (s.set_stage AhdsrStage.Sustain).current = s.sustain := by
  have h1 := skipZeroStages_sustain s hs
  have e1 := advance_early s s.sustain s h1
  have hs2 : (s.apply_params s.attack s.hold s.decay su2 s.release).current_stage =
      AhdsrStage.Sustain := hs
  have h2 := skipZeroStages_sustain _ hs2
  have e2 := advance_early _ _ _ h2
  refine ⟨⟨by rw [e1], by rw [e1]⟩, ⟨by rw [e2]; rfl, by rw [e2]⟩, ⟨rfl, rfl⟩, rfl⟩

/-- Witness for C10 at a concrete `Sustain` state. -/
theorem c10_sustain_live_value_not_stored_witness :
    envSustain.current_stage = AhdsrStage.Sustain ∧
    envSustain.advance.1 = envSustain.sustain ∧ envSustain.advance.2 = envSustain :=
  ⟨rfl, (c10_sustain_live_value_not_stored envSustain rfl (1/5)).1⟩

/-- Claim C1: zero-duration timed stages are skipped entirely by `advance`:
whenever the current timed stage has duration 0 (or below), one `advance`
call applies the transition rule repeatedly and leaves the envelope either
in `NotTriggered`, in `Sustain`, or in a timed stage of strictly positive
duration, so no output sample is attributed to a zero-length stage; in
particular, after `trigger(true)` with attack = hold = decay = 0 and
sustain = 0.3, the very first `advance` call returns 0.3 with the envelope
in the `Sustain` stage. -/
theorem c1_zero_duration_stages_skipped :
    (∀ (s : AhdsrState) (d : ℝ), s.timeForCurrent = some d → d ≤ 0 →
      ((s.advance).2.current_stage = AhdsrStage.NotTriggered ∨
        (s.advance).2.current_stage = AhdsrStage.Sustain ∨
        ∃ T, (s.advance).2.timeForCurrent = some T ∧ 0 < T)) ∧
    ((c1State.advance).1 = 0.3 ∧
      (c1State.advance).2.current_stage = AhdsrStage.Sustain) := by
  constructor
  · intro s d ht hd
    cases hsk : s.skipZeroStages with
    | early v s1 =>
      obtain ⟨hchar, _, _, _⟩ := skip_early_spec hsk
      rw [advance_early s v s1 hsk]
      rcases hchar with ⟨h1, _⟩ | ⟨h1, _⟩
      · exact Or.inl h1
      · exact Or.inr (Or.inl h1)
    | timed s1 T =>
      obtain ⟨hT, htime, hsp, _, hsam⟩ := skip_timed_spec hsk
      have hsam0 : s1.samples_since_stage_start = 0 := by
        rcases hsam with rfl | h0
        · exfalso
          rw [ht] at htime
          injection htime with he
          subst he
          exact absurd hT (not_lt.mpr hd)
        · exact h0
      have hlt : (s1.samples_since_stage_start : ℝ) * s.sample_rate⁻¹ < T := by
        rw [hsam0]
        simpa using hT
      rw [advance_timed_run_eq s s1 T hsk hlt]
      refine Or.inr (Or.inr ⟨T, ?_, hT⟩)
      exact (timeForCurrent_congr rfl ⟨rfl, rfl, rfl, rfl, rfl, rfl⟩).trans htime
  · have h1 : c1State.skipZeroStages = (c1State.set_stage AhdsrStage.Hold).skipZeroStages :=
      skipZeroStages_attack_nonpos c1State rfl (show ¬ (0:ℝ) < 0 by norm_num)
    have h2 : (c1State.set_stage AhdsrStage.Hold).skipZeroStages =
        ((c1State.set_stage AhdsrStage.Hold).set_stage AhdsrStage.Decay).skipZeroStages :=
      skipZeroStages_hold_nonpos _ rfl (show ¬ (0:ℝ) < 0 by norm_num)
    have h3 : ((c1State.set_stage AhdsrStage.Hold).set_stage AhdsrStage.Decay).skipZeroStages =
        (((c1State.set_stage AhdsrStage.Hold).set_stage AhdsrStage.Decay).set_stage
          AhdsrStage.Sustain).skipZeroStages :=
      skipZeroStages_decay_nonpos _ rfl (show ¬ (0:ℝ) < 0 by norm_num)
    have h4 : (((c1State.set_stage AhdsrStage.Hold).set_stage AhdsrStage.Decay).set_stage
          AhdsrStage.Sustain).skipZeroStages =
        .early ((((c1State.set_stage AhdsrStage.Hold).set_stage AhdsrStage.Decay).set_stage
          AhdsrStage.Sustain).sustain)
          ((((c1State.set_stage AhdsrStage.Hold).set_stage AhdsrStage.Decay).set_stage
            AhdsrStage.Sustain)) :=
      skipZeroStages_sustain _ rfl
    have he := advance_early c1State _ _ (((h1.trans h2).trans h3).trans h4)
    rw [he]
    exact ⟨rfl, rfl⟩

/-- Witness for C1 at the concrete zero-duration-attack state. -/
theorem c1_zero_duration_stages_skipped_witness :
    c1State.timeForCurrent = some 0 ∧ (0:ℝ) ≤ 0 ∧
    ((c1State.advance).2.current_stage = AhdsrStage.NotTriggered ∨
      (c1State.advance).2.current_stage = AhdsrStage.Sustain ∨
      ∃ T, (c1State.advance).2.timeForCurrent = some T ∧ 0 < T) :=
  ⟨rfl, le_refl 0, c1_zero_duration_stages_skipped.1 c1State 0 rfl (le_refl 0)⟩

/-- Claim C3: a timed stage of positive duration `D`, entered with the
elapsed-sample counter at 0, is not left early: over the first
`N = D * sample_rate` calls to `advance` the stage never changes, and the
transition to the next stage of the cycle happens exactly on call `N + 1`
(just after the last of those `N` samples). -/
theorem c3_full_duration_before_transition (s : AhdsrState) (D : ℝ) (N : ℕ)
    (ht : s.timeForCurrent = some D) (hD : 0 < D) (hr : 0 < s.sample_rate)
    (h0 : s.samples_since_stage_start = 0) (hN : (N : ℝ) = D * s.sample_rate) :
    (∀ k, k ≤ N → (AhdsrState.advanceN k s).current_stage = s.current_stage) ∧
    (AhdsrState.advanceN (N + 1) s).current_stage = s.current_stage.next := by
  have key : ∀ k, k ≤ N →
      SameParams s (AhdsrState.advanceN k s) ∧
      (AhdsrState.advanceN k s).current_stage = s.current_stage ∧
      (AhdsrState.advanceN k s).samples_since_stage_start = k := by
    intro k
    induction k with
    | zero => intro _; exact ⟨sameParams_refl s, rfl, h0⟩
    | succ k ih =>
      intro hk1
      obtain ⟨hsp, hst, hsam⟩ := ih (Nat.le_of_succ_le hk1)
      have htb : (AhdsrState.advanceN k s).timeForCurrent = some D :=
        (timeForCurrent_congr hst hsp).trans ht
      have hskip : (AhdsrState.advanceN k s).skipZeroStages =
          .timed (AhdsrState.advanceN k s) D := skip_of_timed_pos htb hD
      have hkR : (k : ℝ) < D * s.sample_rate := by
        have hlt : (k : ℝ) < (N : ℝ) := by exact_mod_cast hk1
        rw [hN] at hlt
        exact hlt
      have hlt : ((AhdsrState.advanceN k s).samples_since_stage_start : ℝ) *
          (AhdsrState.advanceN k s).sample_rate⁻¹ < D := by
        rw [hsam, hsp.1, ← div_eq_mul_inv]
        exact (div_lt_iff hr).mpr hkR
      have he := advance_timed_run_eq (AhdsrState.advanceN k s) (AhdsrState.advanceN k s) D
        hskip hlt
      rw [advanceN_succ_shift k s, he]
      refine ⟨sameParams_trans hsp ⟨rfl, rfl, rfl, rfl, rfl, rfl⟩, hst, ?_⟩
      show (AhdsrState.advanceN k s).samples_since_stage_start + 1 = k + 1
      rw [hsam]
  refine ⟨fun k hk => (key k hk).2.1, ?_⟩
  obtain ⟨hsp, hst, hsam⟩ := key N le_rfl
  have htb : (AhdsrState.advanceN N s).timeForCurrent = some D :=
    (timeForCurrent_congr hst hsp).trans ht
  have hskip : (AhdsrState.advanceN N s).skipZeroStages =
      .timed (AhdsrState.advanceN N s) D := skip_of_timed_pos htb hD
  have hge : D ≤ ((AhdsrState.advanceN N s).samples_since_stage_start : ℝ) *
      (AhdsrState.advanceN N s).sample_rate⁻¹ := by
    rw [hsam, hsp.1, ← div_eq_mul_inv, hN, mul_div_assoc, div_self hr.ne', mul_one]
  have he := advance_timed_next_eq (AhdsrState.advanceN N s) (AhdsrState.advanceN N s) D
    hskip hge
  rw [advanceN_succ_shift N s, he]
  show (AhdsrState.advanceN N s).current_stage.next = s.current_stage.next
  rw [hst]

/-- Witness for C3 at the concrete one-second `Attack` stage sampled at
2 Hz (two samples in the stage, transition on the third call). -/
theorem c3_full_duration_before_transition_witness :
    envAttack.timeForCurrent = some 1 ∧ (0:ℝ) < 1 ∧ (0:ℝ) < envAttack.sample_rate ∧
    envAttack.samples_since_stage_start = 0 ∧
    ((2:ℕ) : ℝ) = 1 * envAttack.sample_rate ∧
    (AhdsrState.advanceN (2 + 1) envAttack).current_stage = envAttack.current_stage.next := by
  have h2 : (0:ℝ) < envAttack.sample_rate := show (0:ℝ) < 2 by norm_num
  have h5 : ((2:ℕ) : ℝ) = 1 * envAttack.sample_rate := show ((2:ℕ) : ℝ) = 1 * 2 by norm_num
  exact ⟨rfl, one_pos, h2, rfl, h5,
    (c3_full_duration_before_transition envAttack 1 2 rfl one_pos h2 rfl h5).2⟩

theorem osc_advance_finite (r p f : ℚ) (hr : 0 < r) (hp0 : 0 ≤ p) (hp1 : p < 1)
    (hf : 0 ≤ f) :
    ∃ q : ℚ, (OscillatorState.advance ⟨F.finite r, F.finite p⟩ (F.finite f)).2 =
        ⟨F.finite r, F.finite q⟩ ∧ 0 ≤ q ∧ q < 1 := by
  have hr0 : r ≠ 0 := hr.ne'
  have hinc : 0 ≤ f * r⁻¹ := mul_nonneg hf (inv_nonneg.mpr hr.le)
  by_cases hx : 1 ≤ p + f * r⁻¹
  · refine ⟨p + f * r⁻¹ - (⌊p + f * r⁻¹⌋ : ℚ), ?_, ?_, ?_⟩
    · simp [OscillatorState.advance, F.recip, F.mul, F.add, F.ge, F.sub, F.floor, hr0, hx]
    · have := Int.floor_le (p + f * r⁻¹)
      linarith
    · have := Int.lt_floor_add_one (p + f * r⁻¹)
      linarith
  · refine ⟨p + f * r⁻¹, ?_, add_nonneg hp0 hinc, not_le.mp hx⟩
    simp [OscillatorState.advance, F.recip, F.mul, F.add, F.ge, F.sub, F.floor, hr0, hx]

/-- Claim C6: for every positive (finite) sample rate, every starting phase
in `[0, 1)` and every sequence of non-negative frequencies — however large
relative to the sample rate — the oscillator phase stored after each
`advance` call remains a finite value in `[0, 1)`. -/
theorem c6_oscillator_phase_in_unit_interval (r p : ℚ) (hr : 0 < r) (hp0 : 0 ≤ p)
    (hp1 : p < 1) (fs : List ℚ) (hfs : ∀ f ∈ fs, 0 ≤ f) :
    ∃ q : ℚ, (OscillatorState.run ⟨F.finite r, F.finite p⟩ fs).phase = F.finite q ∧
      0 ≤ q ∧ q < 1 := by
  have H : ∀ (fs : List ℚ), (∀ f ∈ fs, 0 ≤ f) → ∀ (p : ℚ), 0 ≤ p → p < 1 →
      ∃ q : ℚ, (OscillatorState.run ⟨F.finite r, F.finite p⟩ fs).phase = F.finite q ∧
        0 ≤ q ∧ q < 1 := by
    intro fs
    induction fs with
    | nil => intro _ p hp0 hp1; exact ⟨p, rfl, hp0, hp1⟩
    | cons f fs ih =>
      intro hfs p hp0 hp1
      have hf : 0 ≤ f := hfs f (List.mem_cons_self f fs)
      obtain ⟨q, hq, hq0, hq1⟩ := osc_advance_finite r p f hr hp0 hp1 hf
      have hrun : OscillatorState.run (⟨F.finite r, F.finite p⟩ : OscillatorState) (f :: fs) =
          OscillatorState.run ⟨F.finite r, F.finite q⟩ fs := by
        show OscillatorState.run
          ((OscillatorState.advance ⟨F.finite r, F.finite p⟩ (F.finite f)).2) fs = _
        rw [hq]
      rw [hrun]
      exact ih (fun g hg => hfs g (List.mem_cons_of_mem f hg)) q hq0 hq1
  exact H fs hfs p hp0 hp1

/-- Witness for C6 at a concrete rate 1, phase 0, two advances with
frequencies 1/2 and 3 (the second one sweeps three full cycles in one
sample). -/
theorem c6_oscillator_phase_in_unit_interval_witness :
    (0:ℚ) < 1 ∧ (0:ℚ) ≤ 0 ∧ (0:ℚ) < 1 ∧ (∀ f ∈ [(1:ℚ)/2, 3], 0 ≤ f) ∧
    ∃ q : ℚ, (OscillatorState.run ⟨F.finite 1, F.finite 0⟩ [(1:ℚ)/2, 3]).phase = F.finite q ∧
      0 ≤ q ∧ q < 1 := by
  have hfs : ∀ f ∈ [(1:ℚ)/2, 3], 0 ≤ f := by
    intro f hf
    rcases List.mem_cons.mp hf with rfl | hf
    · norm_num
    rcases List.mem_cons.mp hf with rfl | hf
    · norm_num
    · cases hf
  exact ⟨one_pos, le_refl 0, one_pos, hfs,
    c6_oscillator_phase_in_unit_interval 1 0 one_pos (le_refl 0) one_pos _ hfs⟩

/-- Counterexample for C9: the render path is not guarded before
initialization.  From the default (pre-init) state the sample rate is `0.0`;
the very first oscillator advance of the render path computes
`0 + 41 * recip(0) = +inf` and then `inf - floor(inf) = nan`, so the stored
phase is `nan` after one render call, and the second render call's
oscillator output (the value fed through `sin` into the output sample) is
`nan` — not the silence the claim asserts. -/
theorem c9_preinit_not_guarded_counterexample :
    ((preInitOsc.advance (F.finite 41)).2).phase = F.nan ∧
    (((preInitOsc.advance (F.finite 41)).2).advance (F.finite 41)).1 = F.nan := by
  constructor <;> rfl

/-- Amended C9: before the sample rate has been initialized, the envelopes
do return silence — from the default `NotTriggered` state, `advance` returns
0 and leaves the state unchanged, forever — but the oscillator part of the
render path has no defensive guard (see the counterexample): initialization
before processing is the host's contract, not enforced in the core. -/
theorem c9_preinit_envelope_silent (n : ℕ) :
    AhdsrState.advanceN n AhdsrState.default = AhdsrState.default ∧
    AhdsrState.default.advance = (0, AhdsrState.default) := by
  have hadv : AhdsrState.default.advance = (0, AhdsrState.default) :=
    advance_early _ _ _ (skipZeroStages_notTriggered AhdsrState.default rfl)
  refine ⟨?_, hadv⟩
  induction n with
  | zero => rfl
  | succ n ih => rw [advanceN_succ_shift, ih, hadv]

/-- Claim C8: note-off handling follows last-note priority: a note-off
matching the held note clears it and gates both envelopes into `Release`; a
mismatched note-off (for a note superseded by a later note-on) leaves the
whole voice state — envelopes, oscillator, held-note record — completely
unchanged; and a note-on records its note as the held note. -/
theorem c8_note_off_last_note_priority (v : KickSynth) (note : ℕ) :
    (v.last_midi_note = some note →
      v.on_note_off note =
        { v with
            last_midi_note := none
            amp_env_state := v.amp_env_state.trigger false
            pitch_env_state := v.pitch_env_state.trigger false }) ∧
    (v.last_midi_note ≠ some note → v.on_note_off note = v) ∧
    (∀ (mntf : ℕ → ℝ) (velocity : ℝ) (phase_offset : ℚ) (n : ℕ),
      (KickSynth.on_note_on mntf v n velocity phase_offset).last_midi_note = some n) := by
  refine ⟨?_, ?_, fun _ _ _ _ => rfl⟩
  · intro h
    unfold KickSynth.on_note_off
    rw [if_pos h.symm]
  · intro h
    unfold KickSynth.on_note_off
    rw [if_neg (fun he => h he.symm)]

/-- Witness for C8 at a concrete voice holding note 5: note-off 5 matches,
note-off 7 is dropped. -/
theorem c8_note_off_last_note_priority_witness :
    voiceHolding5.last_midi_note = some 5 ∧
    voiceHolding5.on_note_off 5 =
      { voiceHolding5 with
          last_midi_note := none
          amp_env_state := voiceHolding5.amp_env_state.trigger false
          pitch_env_state := voiceHolding5.pitch_env_state.trigger false } ∧
    voiceHolding5.last_midi_note ≠ some 7 ∧
    voiceHolding5.on_note_off 7 = voiceHolding5 := by
  have h1 : voiceHolding5.last_midi_note = some 5 := rfl
  have h2 : voiceHolding5.last_midi_note ≠ some 7 := by
    intro h
    exact absurd (h1.symm.trans h) (by decide)
  exact ⟨h1, (c8_note_off_last_note_priority voiceHolding5 5).1 h1, h2,
    (c8_note_off_last_note_priority voiceHolding5 7).2.1 h2⟩

end KickVerify
